import Mathlib

/-!
# Verification of the 2D SDF-SLAM core (`src/core/grid_map.py`, `src/core/slam.py`)

A shallow embedding of the numerical core of the repository: the TSDF grid
fusion (`GridMap.FuseSdf` / `GridMap._UpdateSdfMap`) and the Gauss-Newton
scan tracker (`SLAM.Track`).  Machine floats are idealised as real numbers;
the `astype(np.int16)` cast is modelled exactly (truncation toward zero
followed by wrap-around into the signed 16-bit range).  Every definition is
translated line-by-line from the Python source; the few helpers of `slam.py`
whose definitions are not part of the repository snapshot (`utils.py`,
the grid-map gradient/value query methods) are abstracted as parameters or
modelled from the specification and marked as such.
-/

open scoped Classical

noncomputable section

abbrev M3 := Matrix (Fin 3) (Fin 3) ℝ

/-- Map configuration, from the yaml config consumed by `GridMap.__init__`
(grid_map.py lines 17-21): physical width/height in meters and the cell
resolution in meters per cell. -/
structure MapConfig where
  width : ℝ
  height : ℝ
  res : ℝ

/-- Source: `self._size_x = int(np.ceil(self._width / self._res))` (grid_map.py line 25). -/
def sizeX (cfg : MapConfig) : ℕ := (⌈cfg.width / cfg.res⌉).toNat

/-- Source: `self._size_y = int(np.ceil(self._height / self._res))` (grid_map.py line 26). -/
def sizeY (cfg : MapConfig) : ℕ := (⌈cfg.height / cfg.res⌉).toNat

/-- Source: `self._mini_x = - float(self._width) / 2` (grid_map.py line 28). -/
def miniX (cfg : MapConfig) : ℝ := -cfg.width / 2

/-- Source: `self._maxi_y = float(self._height / 2)` (grid_map.py line 31). -/
def maxiY (cfg : MapConfig) : ℝ := cfg.height / 2

/-- Source: `self._truncation = 5 * self._res` (grid_map.py line 42). -/
def truncation (cfg : MapConfig) : ℝ := 5 * cfg.res

/-- The two per-cell grids owned by `GridMap`: `self._sdf_map` and
`self._freq_map` (grid_map.py lines 37-39), indexed row-column. -/
structure SdfState where
  sdf : ℕ → ℕ → ℝ
  freq : ℕ → ℕ → ℝ

/-- The freshly constructed map: both grids are all zeros
(`np.zeros`, grid_map.py lines 37-39). -/
def initState : SdfState := { sdf := fun _ _ => 0, freq := fun _ _ => 0 }

/-- Scan angular/range metadata passed to `FuseSdf`
(grid_map.py line 71: `min_angle, max_angle, inc_angle, min_range, max_range`). -/
structure ScanParams where
  minAngle : ℝ
  maxAngle : ℝ
  incAngle : ℝ
  minRange : ℝ
  maxRange : ℝ

/-- The pose matrix built by `GridMap._GetSE2FromPose` (grid_map.py lines
145-158).  Note the source writes `mat[2, 0] = x` and `mat[2, 1] = y`: the
translation lands in the *bottom row* of the 3x3 matrix, not in the last
column. -/
def poseMat (p : ℝ × ℝ × ℝ) : M3 :=
  !![Real.cos p.2.2, -Real.sin p.2.2, 0;
     Real.sin p.2.2,  Real.cos p.2.2, 0;
     p.1,             p.2.1,          1]

/-- World coordinate of cell `(r, c)`:
`grid_coords = (xs, -ys)` and `world_pts = grid_coords * res + grid_ul_coord`
with `grid_ul_coord = (mini_x, maxi_y)` (grid_map.py lines 77-84). -/
def worldPt (cfg : MapConfig) (r c : ℕ) : ℝ × ℝ :=
  ((c : ℝ) * cfg.res + miniX cfg, -(r : ℝ) * cfg.res + maxiY cfg)

/-- The cell's coordinates in the sensor frame as `FuseSdf` computes them
(grid_map.py lines 87-92): `T_c_w = np.linalg.inv(T_w_c)` and
`grid_local_pts = T_c_w[:2, :2] @ world_pts + T_c_w[:2, 2]`. -/
def localPt (cfg : MapConfig) (p : ℝ × ℝ × ℝ) (r c : ℕ) : ℝ × ℝ :=
  let T := (poseMat p)⁻¹
  let w := worldPt cfg r c
  (T 0 0 * w.1 + T 0 1 * w.2 + T 0 2,
   T 1 0 * w.1 + T 1 1 * w.2 + T 1 2)

/-- Source: `grid_local_dist = norm(grid_local_pts - trans)` where `trans = (x, y)`
is the pose translation (grid_map.py lines 72-73 and 93-94). -/
def localDist (cfg : MapConfig) (p : ℝ × ℝ × ℝ) (r c : ℕ) : ℝ :=
  Real.sqrt (((localPt cfg p r c).1 - p.1) ^ 2 + ((localPt cfg p r c).2 - p.2.1) ^ 2)

/-- The tangent list entry of grid_map.py lines 96-98: `y/x` when the forward
component `x` is nonzero, otherwise the placeholder `pi/2` (lateral component
positive) or `-pi/2`. -/
def localTan (cfg : MapConfig) (p : ℝ × ℝ × ℝ) (r c : ℕ) : ℝ :=
  if (localPt cfg p r c).1 ≠ 0 then (localPt cfg p r c).2 / (localPt cfg p r c).1
  else if 0 < (localPt cfg p r c).2 then Real.pi / 2 else -(Real.pi / 2)

/-- Source: `grid_local_pts_angle = np.arctan(grid_local_pts_tan)` (grid_map.py line 100). -/
def localAngle (cfg : MapConfig) (p : ℝ × ℝ × ℝ) (r c : ℕ) : ℝ :=
  Real.arctan (localTan cfg p r c)

/-- Truncation toward zero, the behaviour of a float-to-integer `astype` cast. -/
def truncTowardZero (x : ℝ) : ℤ := if 0 ≤ x then ⌊x⌋ else ⌈x⌉

/-- Wrap an integer into the signed 16-bit range, the behaviour of
`astype(np.int16)`. -/
def toInt16 (n : ℤ) : ℤ := (n + 2 ^ 15) % 2 ^ 16 - 2 ^ 15

/-- Pre-cast ray index `(grid_local_pts_angle - min_angle) / inc_angle`
truncated to an integer (grid_map.py lines 112-113). -/
def scanIdxRaw (cfg : MapConfig) (p : ℝ × ℝ × ℝ) (prm : ScanParams) (r c : ℕ) : ℤ :=
  truncTowardZero ((localAngle cfg p r c - prm.minAngle) / prm.incAngle)

/-- Source: `scan_pts_idxs = (... ).astype(np.int16)` (grid_map.py lines 112-113). -/
def scanIdx (cfg : MapConfig) (p : ℝ × ℝ × ℝ) (prm : ScanParams) (r c : ℕ) : ℤ :=
  toInt16 (scanIdxRaw cfg p prm r c)

/-- The frustum test `grid_valid_idxs` (grid_map.py lines 114-119):
forward component positive, range within `[min_range, max_range]`, bearing
within `[min_angle, max_angle]`. -/
def frustumValid (cfg : MapConfig) (p : ℝ × ℝ × ℝ) (prm : ScanParams) (r c : ℕ) : Prop :=
  0 < (localPt cfg p r c).1 ∧
  localDist cfg p r c ≤ prm.maxRange ∧
  prm.minRange ≤ localDist cfg p r c ∧
  prm.minAngle ≤ localAngle cfg p r c ∧
  localAngle cfg p r c ≤ prm.maxAngle

/-- Source: `num_scan = np.ceil((max_angle - min_angle) / inc_angle) + 1`
(grid_map.py line 120).  Computed by the source but never used: in
particular it is *not* used to clamp `scan_pts_idxs`. -/
def numScan (prm : ScanParams) : ℝ :=
  ((⌈(prm.maxAngle - prm.minAngle) / prm.incAngle⌉ : ℤ) : ℝ) + 1

/-- Source: `depth_val`: zero everywhere except at frustum-valid cells, where the
scan range at the computed ray index is read (grid_map.py lines 123-124).
The source indexes the numpy array directly (raising `IndexError` when the
index is out of bounds); the embedding totalises the read with a default. -/
def depthVal (cfg : MapConfig) (scan : List ℝ) (p : ℝ × ℝ × ℝ) (prm : ScanParams)
    (r c : ℕ) : ℝ :=
  if frustumValid cfg p prm r c then scan.getD (scanIdx cfg p prm r c).toNat 0 else 0

/-- Source: `depth_diff = depth_val - grid_local_dist` (grid_map.py line 125). -/
def depthDiff (cfg : MapConfig) (scan : List ℝ) (p : ℝ × ℝ × ℝ) (prm : ScanParams)
    (r c : ℕ) : ℝ :=
  depthVal cfg scan p prm r c - localDist cfg p r c

/-- The truncation filter `depth_diff_valid_idxs`
(grid_map.py lines 127-128): `-truncation < depth_diff < truncation`. -/
def truncOK (cfg : MapConfig) (scan : List ℝ) (p : ℝ × ℝ × ℝ) (prm : ScanParams)
    (r c : ℕ) : Prop :=
  -truncation cfg < depthDiff cfg scan p prm r c ∧
  depthDiff cfg scan p prm r c < truncation cfg

/-- The final update mask `valid_idxs` (grid_map.py lines 129-130): the cell
is one of the grid's cells, passes the frustum test and the truncation
filter. -/
def updMask (cfg : MapConfig) (scan : List ℝ) (p : ℝ × ℝ × ℝ) (prm : ScanParams)
    (r c : ℕ) : Prop :=
  r < sizeY cfg ∧ c < sizeX cfg ∧ frustumValid cfg p prm r c ∧ truncOK cfg scan p prm r c

/-- Source: `GridMap._UpdateSdfMap` followed from `FuseSdf` (grid_map.py lines
133-140): on masked cells
`sdf' = (sdf * freq + depth_diff) / (freq + 1)` and `freq' = freq + 1`;
all other cells keep both values. -/
def fuseSdf (cfg : MapConfig) (scan : List ℝ) (p : ℝ × ℝ × ℝ) (prm : ScanParams)
    (m : SdfState) : SdfState :=
  { sdf := fun r c =>
      if updMask cfg scan p prm r c then
        (m.sdf r c * m.freq r c + depthDiff cfg scan p prm r c) / (m.freq r c + 1)
      else m.sdf r c,
    freq := fun r c =>
      if updMask cfg scan p prm r c then m.freq r c + 1 else m.freq r c }

/-- One `FuseSdf` invocation: a scan, a pose and the scan parameters. -/
structure FuseCall where
  scan : List ℝ
  pose : ℝ × ℝ × ℝ
  prm : ScanParams

/-- Folding a sequence of `FuseSdf` calls over a map state. -/
def runCalls (cfg : MapConfig) (calls : List FuseCall) (m : SdfState) : SdfState :=
  calls.foldl (fun s fc => fuseSdf cfg fc.scan fc.pose fc.prm s) m

/-- The residuals a fixed cell `(r, c)` receives over a sequence of calls:
the `depth_diff` of each call whose update mask covers the cell. -/
def residualsAt (cfg : MapConfig) (r c : ℕ) (calls : List FuseCall) : List ℝ :=
  calls.filterMap fun fc =>
    if updMask cfg fc.scan fc.pose fc.prm r c then
      some (depthDiff cfg fc.scan fc.pose fc.prm r c)
    else none

/-- Map states reachable from the freshly constructed map by `FuseSdf` calls. -/
inductive Reachable (cfg : MapConfig) : SdfState → Prop
  | start : Reachable cfg initState
  | fuse (m : SdfState) (scan : List ℝ) (p : ℝ × ℝ × ℝ) (prm : ScanParams) :
      Reachable cfg m → Reachable cfg (fuseSdf cfg scan p prm m)

/-- Source: `GridMap.GetScanWorldCoords` (grid_map.py lines 160-181).  The function
builds the rotation and translation and computes `scan_w = rot @ scan +
trans`, but then immediately overwrites the result with `scan_w = scan[:2, :]`
and returns that. -/
def GetScanWorldCoords (scan : Fin 3 → ℕ → ℝ) (p : ℝ × ℝ × ℝ) : Fin 2 → ℕ → ℝ :=
  let rot : M3 :=
    !![Real.cos p.2.2, -Real.sin p.2.2, 0;
       Real.sin p.2.2,  Real.cos p.2.2, 0;
       0,               0,              1]
  let tr : Fin 3 → ℝ := ![p.1, p.2.1, 0]
  let scanW : Fin 3 → ℕ → ℝ := fun i j => (∑ k : Fin 3, rot i k * scan k j) + tr i
  fun i j => scan (Fin.castSucc i) j

/-! ## The tracker (`SLAM.Track`, slam.py lines 87-159)

`Track` iterates a Gauss-Newton step against the SDF map.  The per-point
accumulation (slam.py lines 104-139) reads `utils.GetScanWorldCoordsFromSE2`,
`GridMap.FromMeterToCellNoRound`, `GridMap.HasValidGradient`,
`GridMap.CalcSdfGradient`, `GridMap.GetSdfValue` and `GridMap.weight_map`,
none of which are part of the repository snapshot (`utils.py` is absent and
the `grid_map.py` present here does not define those methods).  Modelled from
the spec: the whole accumulation is abstracted as a function `acc` from the
current pose to the accumulated `(H, g, err_sum, opt_num)`, and the missing
first-order exponential `utils.ExpFromSe2` is abstracted as a function `ef`
(with `expFromSe2` below as its spec version).  The loop control flow is
translated from slam.py exactly. -/

/-- The values accumulated by one Gauss-Newton iteration of `SLAM.Track`
(slam.py lines 98-104): the 3x3 system matrix `H`, the gradient term `g`,
the summed squared SDF values `err_sum` and the number of contributing
points `opt_num`. -/
structure AccResult where
  H : M3
  g : Fin 3 → ℝ
  errSum : ℝ
  optNum : ℕ

/-- Source: `SLAM.kOptMaxIters = 10` (slam.py line 29). -/
def kOptMaxIters : ℕ := 10

/-- Source: `SLAM.kEpsOfYaw = 1e-3` (slam.py line 30). -/
def kEpsOfYaw : ℝ := 1 / 1000

/-- Source: `SLAM.kEpsOfTrans = 1e-3` (slam.py line 31). -/
def kEpsOfTrans : ℝ := 1 / 1000

/-- Source: `SLAM.kOptStopThr = 0.003` (slam.py line 33). -/
def kOptStopThr : ℝ := 3 / 1000

/-- The twist solved each iteration (slam.py lines 147-151):
`xi = -inv(H) @ g`, falling back to the zero twist when `np.linalg.inv`
raises `LinAlgError` on a singular `H`. -/
def xiOf (a : AccResult) : Fin 3 → ℝ :=
  if a.H.det ≠ 0 then -(Matrix.mulVec a.H⁻¹ a.g) else 0

/-- The convergence test of slam.py lines 154-155 (Python precedence:
`(A and B) or C`): yaw component below `kEpsOfYaw` and translation norm
below `kEpsOfTrans`, or mean squared SDF residual below `kOptStopThr`. -/
def convergedCond (xi : Fin 3 → ℝ) (errMetric : ℝ) : Prop :=
  (|xi 2| < kEpsOfYaw ∧ Real.sqrt (xi 0 ^ 2 + xi 1 ^ 2) < kEpsOfTrans) ∨
  errMetric < kOptStopThr

/-- Modelled from the spec: `utils.ExpFromSe2` is not under `src/`; the spec
(sections 3 and 4.2) prescribes a first-order (small-angle) exponential,
identity plus the twist placed as translation and skew yaw term. -/
def expFromSe2 (xi : Fin 3 → ℝ) : M3 :=
  !![1, -xi 2, xi 0;
     xi 2, 1, xi 1;
     0, 0, 1]

/-- The `while it < kOptMaxIters` loop of `SLAM.Track` (slam.py lines
94-158), with the remaining iteration count as fuel: abort when
`opt_num == 0`; otherwise solve for the twist, stop when converged, else
left-multiply the pose by the exponential of the twist and continue. -/
def trackLoop (acc : M3 → AccResult) (ef : (Fin 3 → ℝ) → M3) : ℕ → M3 → M3
  | 0, p => p
  | (fuel + 1), p =>
      if (acc p).optNum = 0 then p
      else
        if convergedCond (xiOf (acc p)) ((acc p).errSum / ((acc p).optNum : ℝ)) then p
        else trackLoop acc ef fuel (ef (xiOf (acc p)) * p)

/-- Source: `SLAM.Track` (slam.py lines 87-159): run the Gauss-Newton loop for at
most `kOptMaxIters` iterations from the previous pose and return the last
computed pose. -/
def Track (acc : M3 → AccResult) (ef : (Fin 3 → ℝ) → M3) (p : M3) : M3 :=
  trackLoop acc ef kOptMaxIters p

/-- One loop iteration's pose update (slam.py line 157):
`last_pose = ExpFromSe2(xi) @ last_pose`. -/
def stepPose (acc : M3 → AccResult) (ef : (Fin 3 → ℝ) → M3) (p : M3) : M3 :=
  ef (xiOf (acc p)) * p

/-- The condition under which the loop body leaves the loop at pose `p`:
no contributing points, or the convergence test passes. -/
def stopCond (acc : M3 → AccResult) (p : M3) : Prop :=
  (acc p).optNum = 0 ∨
  convergedCond (xiOf (acc p)) ((acc p).errSum / ((acc p).optNum : ℝ))

/-! ## Reference definitions following the spec's words -/

/-- Modelled from the spec (sections 3 and 4.1) and the claim about
`_GetSE2FromPose`: a rigid transform "whose 3x3 homogeneous matrix carries
the rotation in the upper-left 2x2 block and the translation in the last
column".  Compare with `poseMat`, which the source builds with the
translation in the last *row*. -/
def poseMatSpec (p : ℝ × ℝ × ℝ) : M3 :=
  !![Real.cos p.2.2, -Real.sin p.2.2, p.1;
     Real.sin p.2.2,  Real.cos p.2.2, p.2.1;
     0,               0,              1]

/-- The sensor-frame coordinates the claim describes: the same pipeline as
`localPt`, but inverting the spec's homogeneous matrix `poseMatSpec`. -/
def localPtSpec (cfg : MapConfig) (p : ℝ × ℝ × ℝ) (r c : ℕ) : ℝ × ℝ :=
  let T := (poseMatSpec p)⁻¹
  let w := worldPt cfg r c
  (T 0 0 * w.1 + T 0 1 * w.2 + T 0 2,
   T 1 0 * w.1 + T 1 1 * w.2 + T 1 2)

/-! ## Concrete evaluation inputs -/

/-- A 4m x 4m map at 1m resolution: a 4x4 grid with corners at
(-2, -2) and (2, 2) and truncation distance 5m. -/
def cfg₀ : MapConfig := { width := 4, height := 4, res := 1 }

/-- A 20m x 20m map at 1m resolution, used to exhibit residuals beyond the
truncation distance. -/
def cfgL : MapConfig := { width := 20, height := 20, res := 1 }

/-- The identity pose. -/
def pose₀ : ℝ × ℝ × ℝ := (0, 0, 0)

/-- A pure-translation pose: one meter along x, no rotation. -/
def pose₁ : ℝ × ℝ × ℝ := (1, 0, 0)

/-- Scan parameters: bearings in [-1, 1] rad at 1 rad increment, ranges in
[0, 10] m. -/
def prm₀ : ScanParams :=
  { minAngle := -1, maxAngle := 1, incAngle := 1, minRange := 0, maxRange := 10 }

/-- Scan parameters: bearings in [0, 1] rad at 0.25 rad increment, ranges in
[0, 10] m. -/
def prm₁ : ScanParams :=
  { minAngle := 0, maxAngle := 1, incAngle := 1 / 4, minRange := 0, maxRange := 10 }

/-- A two-ray scan with ranges 4 m and 2 m. -/
def scan₀ : List ℝ := [4, 2]

/-- A two-ray scan with both ranges 5 m. -/
def scan₁ : List ℝ := [5, 5]

/-- An accumulation that always reports one contributing point with the
identity system matrix and zero gradient term. -/
def accOne : M3 → AccResult := fun _ => { H := 1, g := 0, errSum := 0, optNum := 1 }

/-- An accumulation that always reports zero contributing points and a
singular (zero) system matrix. -/
def accZero : M3 → AccResult := fun _ => { H := 0, g := 0, errSum := 0, optNum := 0 }

/-! ## General lemmas about the fusion update -/

lemma fuseSdf_sdf (cfg : MapConfig) (scan : List ℝ) (p : ℝ × ℝ × ℝ) (prm : ScanParams)
    (m : SdfState) (r c : ℕ) :
    (fuseSdf cfg scan p prm m).sdf r c =
      if updMask cfg scan p prm r c then
        (m.sdf r c * m.freq r c + depthDiff cfg scan p prm r c) / (m.freq r c + 1)
      else m.sdf r c := rfl

lemma fuseSdf_freq (cfg : MapConfig) (scan : List ℝ) (p : ℝ × ℝ × ℝ) (prm : ScanParams)
    (m : SdfState) (r c : ℕ) :
    (fuseSdf cfg scan p prm m).freq r c =
      if updMask cfg scan p prm r c then m.freq r c + 1 else m.freq r c := rfl

lemma freq_nonneg {cfg : MapConfig} {m : SdfState} (h : Reachable cfg m) :
    ∀ r c, 0 ≤ m.freq r c := by
  induction h with
  | start => intro r c; simp [initState]
  | fuse m' scan p prm hm ih =>
      intro r c
      rw [fuseSdf_freq]
      split
      · linarith [ih r c]
      · exact ih r c

lemma abs_sdf_le_truncation {cfg : MapConfig} {m : SdfState}
    (hres : 0 ≤ cfg.res) (h : Reachable cfg m) :
    ∀ r c, |m.sdf r c| ≤ truncation cfg := by
  have htr : 0 ≤ truncation cfg := by unfold truncation; linarith
  induction h with
  | start => intro r c; simpa [initState] using htr
  | fuse m' scan p prm hm ih =>
      intro r c
      have hf := freq_nonneg hm r c
      rw [fuseSdf_sdf]
      split
      · rename_i hmask
        have hd : |depthDiff cfg scan p prm r c| ≤ truncation cfg :=
          le_of_lt (abs_lt.mpr ⟨hmask.2.2.2.1, hmask.2.2.2.2⟩)
        have hs := ih r c
        have hpos : (0 : ℝ) < m'.freq r c + 1 := by linarith
        rw [abs_div, abs_of_pos hpos, div_le_iff₀ hpos]
        calc |m'.sdf r c * m'.freq r c + depthDiff cfg scan p prm r c|
            ≤ |m'.sdf r c * m'.freq r c| + |depthDiff cfg scan p prm r c| := abs_add _ _
          _ = |m'.sdf r c| * m'.freq r c + |depthDiff cfg scan p prm r c| := by
              rw [abs_mul, abs_of_nonneg hf]
          _ ≤ truncation cfg * m'.freq r c + truncation cfg := by
              have := mul_le_mul_of_nonneg_right hs hf
              linarith
          _ = truncation cfg * (m'.freq r c + 1) := by ring
      · exact ih r c

lemma runCalls_cell (cfg : MapConfig) (r c : ℕ) :
    ∀ (calls : List FuseCall) (m : SdfState) (k : ℕ), m.freq r c = (k : ℝ) →
      (runCalls cfg calls m).freq r c = ((k + (residualsAt cfg r c calls).length : ℕ) : ℝ) ∧
      (runCalls cfg calls m).sdf r c * ((k + (residualsAt cfg r c calls).length : ℕ) : ℝ)
          = m.sdf r c * (k : ℝ) + (residualsAt cfg r c calls).sum ∧
      (residualsAt cfg r c calls = [] → (runCalls cfg calls m).sdf r c = m.sdf r c) := by
  intro calls
  induction calls with
  | nil =>
      intro m k hk
      refine ⟨by simpa [runCalls, residualsAt] using hk, ?_, fun _ => rfl⟩
      simp [runCalls, residualsAt, hk]
  | cons fc rest ih =>
      intro m k hk
      have hrun : runCalls cfg (fc :: rest) m
          = runCalls cfg rest (fuseSdf cfg fc.scan fc.pose fc.prm m) := rfl
      by_cases hmask : updMask cfg fc.scan fc.pose fc.prm r c
      · have hres : residualsAt cfg r c (fc :: rest)
            = depthDiff cfg fc.scan fc.pose fc.prm r c :: residualsAt cfg r c rest := by
          simp [residualsAt, List.filterMap_cons, hmask]
        have hfreq2 : (fuseSdf cfg fc.scan fc.pose fc.prm m).freq r c = ((k + 1 : ℕ) : ℝ) := by
          rw [fuseSdf_freq, if_pos hmask, hk]; push_cast; ring
        obtain ⟨h1, h2, _⟩ := ih (fuseSdf cfg fc.scan fc.pose fc.prm m) (k + 1) hfreq2
        have hk1 : ((k : ℝ) + 1) ≠ 0 := by positivity
        have hms : (fuseSdf cfg fc.scan fc.pose fc.prm m).sdf r c * ((k : ℝ) + 1)
            = m.sdf r c * (k : ℝ) + depthDiff cfg fc.scan fc.pose fc.prm r c := by
          rw [fuseSdf_sdf, if_pos hmask, hk, div_mul_cancel₀ _ hk1]
        refine ⟨?_, ?_, ?_⟩
        · rw [hrun, h1, hres]
          simp only [List.length_cons]
          push_cast
          ring
        · rw [hrun, hres]
          simp only [List.length_cons, List.sum_cons]
          push_cast at h2 ⊢
          rw [hms] at h2
          linear_combination h2
        · intro hnil
          rw [hres] at hnil
          exact absurd hnil (List.cons_ne_nil _ _)
      · have hres : residualsAt cfg r c (fc :: rest) = residualsAt cfg r c rest := by
          simp [residualsAt, List.filterMap_cons, hmask]
        have hfreq2 : (fuseSdf cfg fc.scan fc.pose fc.prm m).freq r c = (k : ℝ) := by
          rw [fuseSdf_freq, if_neg hmask]; exact hk
        have hsdf2 : (fuseSdf cfg fc.scan fc.pose fc.prm m).sdf r c = m.sdf r c := by
          rw [fuseSdf_sdf, if_neg hmask]
        obtain ⟨h1, h2, h3⟩ := ih (fuseSdf cfg fc.scan fc.pose fc.prm m) k hfreq2
        refine ⟨?_, ?_, ?_⟩
        · rw [hrun, hres]; exact h1
        · rw [hrun, hres]; rw [hsdf2] at h2; exact h2
        · intro hnil
          rw [hres] at hnil
          rw [hrun, h3 hnil, hsdf2]

/-! ## Claim theorems for the fusion update -/

/-- Claim C1: over any sequence of `FuseSdf` calls from the freshly
constructed map, a cell that receives residuals `r1, ..., rn` (the calls in
which it passes the frustum and truncation tests) ends with `confidence = n`
and `distance` equal to the arithmetic mean of the residuals; each single
masked update computes
`distance' = (distance * confidence + residual) / (confidence + 1)` and
`confidence' = confidence + 1`. -/
theorem C1_running_mean :
    (∀ (cfg : MapConfig) (calls : List FuseCall) (r c : ℕ),
      (runCalls cfg calls initState).freq r c = ((residualsAt cfg r c calls).length : ℝ) ∧
      (runCalls cfg calls initState).sdf r c
          = (residualsAt cfg r c calls).sum / ((residualsAt cfg r c calls).length : ℝ)) ∧
    (∀ (cfg : MapConfig) (scan : List ℝ) (p : ℝ × ℝ × ℝ) (prm : ScanParams)
        (m : SdfState) (r c : ℕ), updMask cfg scan p prm r c →
      (fuseSdf cfg scan p prm m).sdf r c
          = (m.sdf r c * m.freq r c + depthDiff cfg scan p prm r c) / (m.freq r c + 1) ∧
      (fuseSdf cfg scan p prm m).freq r c = m.freq r c + 1) := by
  constructor
  · intro cfg calls r c
    obtain ⟨h1, h2, h3⟩ := runCalls_cell cfg r c calls initState 0 (by simp [initState])
    constructor
    · rw [h1]; push_cast; ring
    · by_cases hnil : residualsAt cfg r c calls = []
      · rw [h3 hnil, hnil]
        simp [initState]
      · have hlen : ((residualsAt cfg r c calls).length : ℝ) ≠ 0 := by
          simpa using List.length_eq_zero.not.mpr hnil
        rw [eq_div_iff hlen]
        simp only [initState, Nat.zero_add, Nat.cast_zero, mul_zero, zero_add] at h2
        exact h2
  · intro cfg scan p prm m r c h
    exact ⟨by rw [fuseSdf_sdf, if_pos h], by rw [fuseSdf_freq, if_pos h]⟩

/-- Claim C2: the truncation distance is 5 times the cell resolution; on
every map state reachable from the fresh map by `FuseSdf` calls, every
cell's stored distance magnitude stays within the truncation distance; and
an update whose residual magnitude exceeds the truncation distance leaves
the cell's distance and confidence untouched. -/
theorem C2_truncation_bound :
    (∀ cfg : MapConfig, truncation cfg = 5 * cfg.res) ∧
    (∀ (cfg : MapConfig) (m : SdfState), 0 ≤ cfg.res → Reachable cfg m →
      ∀ r c, |m.sdf r c| ≤ truncation cfg) ∧
    (∀ (cfg : MapConfig) (scan : List ℝ) (p : ℝ × ℝ × ℝ) (prm : ScanParams)
        (m : SdfState) (r c : ℕ),
      truncation cfg < |depthDiff cfg scan p prm r c| →
      (fuseSdf cfg scan p prm m).sdf r c = m.sdf r c ∧
      (fuseSdf cfg scan p prm m).freq r c = m.freq r c) := by
  refine ⟨fun _ => rfl, fun cfg m hres h => abs_sdf_le_truncation hres h, ?_⟩
  intro cfg scan p prm m r c hd
  have hmask : ¬ updMask cfg scan p prm r c := by
    intro hm
    have : |depthDiff cfg scan p prm r c| < truncation cfg :=
      abs_lt.mpr ⟨hm.2.2.2.1, hm.2.2.2.2⟩
    linarith
  exact ⟨by rw [fuseSdf_sdf, if_neg hmask], by rw [fuseSdf_freq, if_neg hmask]⟩

/-- Claim C3: in a single `FuseSdf` call, a cell that fails the frustum test
or whose residual magnitude exceeds the truncation distance keeps both its
distance and its confidence unchanged. -/
theorem C3_frustum_exclusivity (cfg : MapConfig) (scan : List ℝ) (p : ℝ × ℝ × ℝ)
    (prm : ScanParams) (m : SdfState) (r c : ℕ)
    (h : ¬ frustumValid cfg p prm r c ∨
         truncation cfg < |depthDiff cfg scan p prm r c|) :
    (fuseSdf cfg scan p prm m).sdf r c = m.sdf r c ∧
    (fuseSdf cfg scan p prm m).freq r c = m.freq r c := by
  have hmask : ¬ updMask cfg scan p prm r c := by
    intro hm
    rcases h with h | h
    · exact h hm.2.2.1
    · have : |depthDiff cfg scan p prm r c| < truncation cfg :=
        abs_lt.mpr ⟨hm.2.2.2.1, hm.2.2.2.2⟩
      linarith
  exact ⟨by rw [fuseSdf_sdf, if_neg hmask], by rw [fuseSdf_freq, if_neg hmask]⟩

/-- Claim C9: every cell's confidence starts at 0 on the freshly constructed
map, every `FuseSdf` call leaves it unchanged or increments it by exactly 1,
and on every reachable map state it is non-negative. -/
theorem C9_confidence_monotone :
    (∀ r c, initState.freq r c = 0) ∧
    (∀ (cfg : MapConfig) (scan : List ℝ) (p : ℝ × ℝ × ℝ) (prm : ScanParams)
        (m : SdfState) (r c : ℕ),
      (fuseSdf cfg scan p prm m).freq r c = m.freq r c ∨
      (fuseSdf cfg scan p prm m).freq r c = m.freq r c + 1) ∧
    (∀ (cfg : MapConfig) (m : SdfState), Reachable cfg m → ∀ r c, 0 ≤ m.freq r c) := by
  refine ⟨fun _ _ => rfl, ?_, fun cfg m h => freq_nonneg h⟩
  intro cfg scan p prm m r c
  rw [fuseSdf_freq]
  split
  · exact Or.inr rfl
  · exact Or.inl rfl

/-- Claim C10: `GetScanWorldCoords` returns the first two rows of its input
scan unchanged, independently of the pose argument. -/
theorem C10_scan_coords_ignore_pose (scan : Fin 3 → ℕ → ℝ) (p q : ℝ × ℝ × ℝ) :
    (∀ (i : Fin 2) (j : ℕ), GetScanWorldCoords scan p i j = scan (Fin.castSucc i) j) ∧
    GetScanWorldCoords scan p = GetScanWorldCoords scan q :=
  ⟨fun _ _ => rfl, rfl⟩

/-! ## The tracker loop characterization -/

lemma trackLoop_succ (acc : M3 → AccResult) (ef : (Fin 3 → ℝ) → M3) (n : ℕ) (p : M3) :
    trackLoop acc ef (n + 1) p =
      if stopCond acc p then p else trackLoop acc ef n (stepPose acc ef p) := by
  by_cases h1 : (acc p).optNum = 0
  · rw [trackLoop, if_pos h1, if_pos (show stopCond acc p from Or.inl h1)]
  · by_cases h2 : convergedCond (xiOf (acc p)) ((acc p).errSum / ((acc p).optNum : ℝ))
    · rw [trackLoop, if_neg h1, if_pos h2, if_pos (show stopCond acc p from Or.inr h2)]
    · have hstop : ¬ stopCond acc p := by
        intro h
        rcases h with h | h
        exacts [h1 h, h2 h]
      rw [trackLoop, if_neg h1, if_neg h2, if_neg hstop]
      rfl

lemma trackLoop_iter (acc : M3 → AccResult) (ef : (Fin 3 → ℝ) → M3) :
    ∀ (fuel : ℕ) (p : M3), ∃ k, k ≤ fuel ∧
      trackLoop acc ef fuel p = (stepPose acc ef)^[k] p ∧
      (∀ j, j < k → ¬ stopCond acc ((stepPose acc ef)^[j] p)) ∧
      (k < fuel → stopCond acc ((stepPose acc ef)^[k] p)) := by
  intro fuel
  induction fuel with
  | zero =>
      intro p
      exact ⟨0, le_rfl, rfl, fun j hj => absurd hj (Nat.not_lt_zero j),
        fun h => absurd h (lt_irrefl 0)⟩
  | succ n ih =>
      intro p
      by_cases h : stopCond acc p
      · refine ⟨0, Nat.zero_le _, ?_, fun j hj => absurd hj (Nat.not_lt_zero j),
          fun _ => by simpa using h⟩
        rw [trackLoop_succ, if_pos h]
        rfl
      · obtain ⟨k, hk, he, hnot, hstop⟩ := ih (stepPose acc ef p)
        refine ⟨k + 1, Nat.succ_le_succ hk, ?_, ?_, ?_⟩
        · rw [trackLoop_succ, if_neg h, he, Function.iterate_succ_apply]
        · intro j hj
          cases j with
          | zero => simpa using h
          | succ j' =>
              rw [Function.iterate_succ_apply]
              exact hnot j' (Nat.lt_of_succ_lt_succ hj)
        · intro hlt
          rw [Function.iterate_succ_apply]
          exact hstop (Nat.lt_of_succ_lt_succ hlt)

/-- Claim C7 (the per-iteration accumulation and the exponential, which rely
on helpers absent from `src/`, are abstracted as `acc` and `ef`): `Track`
performs at most `kOptMaxIters = 10` Gauss-Newton pose updates; it returns
the pose after the first iterate at which the loop's stop condition holds
(or the 10th iterate); each non-final iteration applies the twist as the
left-multiplicative update `pose := ef(xi) * pose`; and whenever points
contribute (`opt_num` nonzero) the stop condition is exactly the
convergence test (`|dyaw| < 1e-3` and `|(dx, dy)| < 1e-3`) or
(mean squared SDF residual `< 0.003`). -/
theorem C7_track_iterations (acc : M3 → AccResult) (ef : (Fin 3 → ℝ) → M3) (p : M3) :
    (∃ k, k ≤ kOptMaxIters ∧ Track acc ef p = (stepPose acc ef)^[k] p ∧
      (∀ j, j < k → ¬ stopCond acc ((stepPose acc ef)^[j] p)) ∧
      (k < kOptMaxIters → stopCond acc ((stepPose acc ef)^[k] p))) ∧
    (∀ q : M3, stepPose acc ef q = ef (xiOf (acc q)) * q) ∧
    (∀ q : M3, (acc q).optNum ≠ 0 →
      (stopCond acc q ↔
        convergedCond (xiOf (acc q)) ((acc q).errSum / ((acc q).optNum : ℝ)))) := by
  refine ⟨trackLoop_iter acc ef kOptMaxIters p, fun _ => rfl, ?_⟩
  intro q hq
  unfold stopCond
  exact or_iff_right hq

/-- Claim C8 (accumulation and exponential abstracted as in C7): when no
points contribute (`opt_num == 0`) the loop aborts and `Track` returns the
current pose instead of raising; and a singular system matrix `H` makes the
solved twist fall back to zero instead of failing the call. -/
theorem C8_numeric_fallbacks :
    (∀ (acc : M3 → AccResult) (ef : (Fin 3 → ℝ) → M3) (p : M3),
      (acc p).optNum = 0 → Track acc ef p = p) ∧
    (∀ (acc : M3 → AccResult) (ef : (Fin 3 → ℝ) → M3) (n : ℕ) (p : M3),
      (acc p).optNum = 0 → trackLoop acc ef (n + 1) p = p) ∧
    (∀ a : AccResult, a.H.det = 0 → xiOf a = 0) := by
  have habort : ∀ (acc : M3 → AccResult) (ef : (Fin 3 → ℝ) → M3) (n : ℕ) (p : M3),
      (acc p).optNum = 0 → trackLoop acc ef (n + 1) p = p := by
    intro acc ef n p h
    rw [trackLoop_succ, if_pos (show stopCond acc p from Or.inl h)]
  refine ⟨fun acc ef p h => habort acc ef 9 p h, habort, ?_⟩
  intro a h
  simp [xiOf, h]

/-! ## Concrete evaluations used by witnesses and counterexamples -/

lemma poseMat_pose₀_eq_one : poseMat pose₀ = 1 := by
  ext i j
  fin_cases i <;> fin_cases j <;>
    simp [poseMat, pose₀, Matrix.one_apply, Matrix.vecHead, Matrix.vecTail]

lemma inv_poseMat_pose₀ : (poseMat pose₀)⁻¹ = 1 := by
  rw [poseMat_pose₀_eq_one, inv_one]

lemma localPt_pose₀ (cfg : MapConfig) (r c : ℕ) :
    localPt cfg pose₀ r c = worldPt cfg r c := by
  show ((poseMat pose₀)⁻¹ 0 0 * (worldPt cfg r c).1 + (poseMat pose₀)⁻¹ 0 1 * (worldPt cfg r c).2
          + (poseMat pose₀)⁻¹ 0 2,
        (poseMat pose₀)⁻¹ 1 0 * (worldPt cfg r c).1 + (poseMat pose₀)⁻¹ 1 1 * (worldPt cfg r c).2
          + (poseMat pose₀)⁻¹ 1 2) = worldPt cfg r c
  rw [inv_poseMat_pose₀]
  simp [Matrix.one_apply]

lemma localPt_23 : localPt cfg₀ pose₀ 2 3 = (1, 0) := by
  rw [localPt_pose₀]
  unfold worldPt miniX maxiY cfg₀
  norm_num

lemma localPt_21 : localPt cfg₀ pose₀ 2 1 = (-1, 0) := by
  rw [localPt_pose₀]
  unfold worldPt miniX maxiY cfg₀
  norm_num

lemma localPt_12 : localPt cfg₀ pose₀ 1 2 = (0, 1) := by
  rw [localPt_pose₀]
  unfold worldPt miniX maxiY cfg₀
  norm_num

lemma localPt_13 : localPt cfg₀ pose₀ 1 3 = (1, 1) := by
  rw [localPt_pose₀]
  unfold worldPt miniX maxiY cfg₀
  norm_num

lemma localPt_L010 : localPt cfgL pose₀ 0 10 = (0, 10) := by
  rw [localPt_pose₀]
  unfold worldPt miniX maxiY cfgL
  norm_num

lemma localDist_23 : localDist cfg₀ pose₀ 2 3 = 1 := by
  unfold localDist
  rw [localPt_23]
  unfold pose₀
  norm_num

lemma localAngle_23 : localAngle cfg₀ pose₀ 2 3 = 0 := by
  unfold localAngle localTan
  rw [localPt_23]
  norm_num

lemma frustum_23 : frustumValid cfg₀ pose₀ prm₀ 2 3 := by
  unfold frustumValid prm₀
  rw [localDist_23, localAngle_23, localPt_23]
  norm_num

lemma truncation_cfg₀ : truncation cfg₀ = 5 := by
  unfold truncation cfg₀
  norm_num

lemma scanIdx_23 : scanIdx cfg₀ pose₀ prm₀ 2 3 = 1 := by
  unfold scanIdx scanIdxRaw
  rw [localAngle_23]
  have h1 : ((0 : ℝ) - prm₀.minAngle) / prm₀.incAngle = 1 := by
    unfold prm₀
    norm_num
  rw [h1]
  have h2 : truncTowardZero 1 = 1 := by
    unfold truncTowardZero
    rw [if_pos (by norm_num : (0:ℝ) ≤ 1)]
    exact Int.floor_one
  rw [h2]
  decide

lemma depthVal_23 : depthVal cfg₀ scan₀ pose₀ prm₀ 2 3 = 2 := by
  unfold depthVal
  rw [if_pos frustum_23, scanIdx_23]
  rfl

lemma depthDiff_23 : depthDiff cfg₀ scan₀ pose₀ prm₀ 2 3 = 1 := by
  unfold depthDiff
  rw [depthVal_23, localDist_23]
  norm_num

lemma sizeX_cfg₀ : sizeX cfg₀ = 4 := by
  unfold sizeX cfg₀
  have h : (⌈(4:ℝ)/1⌉ : ℤ) = 4 := by norm_num
  rw [h]
  rfl

lemma sizeY_cfg₀ : sizeY cfg₀ = 4 := by
  unfold sizeY cfg₀
  have h : (⌈(4:ℝ)/1⌉ : ℤ) = 4 := by norm_num
  rw [h]
  rfl

lemma mask_23 : updMask cfg₀ scan₀ pose₀ prm₀ 2 3 := by
  refine ⟨by rw [sizeY_cfg₀]; norm_num, by rw [sizeX_cfg₀]; norm_num, frustum_23, ?_⟩
  unfold truncOK
  rw [depthDiff_23, truncation_cfg₀]
  norm_num

lemma notFrustum_21 : ¬ frustumValid cfg₀ pose₀ prm₀ 2 1 := by
  intro h
  have h1 := h.1
  rw [localPt_21] at h1
  norm_num at h1

lemma notFrustum_L010 : ¬ frustumValid cfgL pose₀ prm₀ 0 10 := by
  intro h
  have h1 := h.1
  rw [localPt_L010] at h1
  norm_num at h1

lemma localDist_L010 : localDist cfgL pose₀ 0 10 = 10 := by
  unfold localDist
  rw [localPt_L010]
  unfold pose₀
  norm_num
  rw [show (100:ℝ) = 10 ^ 2 by norm_num]
  exact Real.sqrt_sq (by norm_num)

lemma depthDiff_L010 : depthDiff cfgL scan₀ pose₀ prm₀ 0 10 = -10 := by
  unfold depthDiff depthVal
  rw [if_neg notFrustum_L010, localDist_L010]
  norm_num

lemma truncation_lt_L010 :
    truncation cfgL < |depthDiff cfgL scan₀ pose₀ prm₀ 0 10| := by
  rw [depthDiff_L010]
  unfold truncation cfgL
  norm_num

lemma localAngle_12 : localAngle cfg₀ pose₀ 1 2 = Real.arctan (Real.pi / 2) := by
  unfold localAngle localTan
  rw [localPt_12]
  norm_num

lemma localDist_13 : localDist cfg₀ pose₀ 1 3 = Real.sqrt 2 := by
  unfold localDist
  rw [localPt_13]
  unfold pose₀
  norm_num

lemma localAngle_13 : localAngle cfg₀ pose₀ 1 3 = Real.pi / 4 := by
  unfold localAngle localTan
  rw [localPt_13]
  norm_num

lemma frustum_13 : frustumValid cfg₀ pose₀ prm₁ 1 3 := by
  unfold frustumValid prm₁
  rw [localDist_13, localAngle_13, localPt_13]
  have hs : Real.sqrt 2 ≤ 10 := by
    have h : Real.sqrt 100 = 10 := by
      rw [show (100:ℝ) = 10 ^ 2 by norm_num]
      exact Real.sqrt_sq (by norm_num)
    calc Real.sqrt 2 ≤ Real.sqrt 100 := Real.sqrt_le_sqrt (by norm_num)
      _ = 10 := h
  refine ⟨by norm_num, hs, Real.sqrt_nonneg 2, by positivity, ?_⟩
  linarith [Real.pi_le_four]

lemma scanIdxRaw_13 : scanIdxRaw cfg₀ pose₀ prm₁ 1 3 = 3 := by
  unfold scanIdxRaw
  rw [localAngle_13]
  have h1 : (Real.pi / 4 - prm₁.minAngle) / prm₁.incAngle = Real.pi := by
    unfold prm₁
    norm_num
    ring
  rw [h1]
  unfold truncTowardZero
  rw [if_pos (le_of_lt Real.pi_pos)]
  rw [Int.floor_eq_iff]
  constructor
  · push_cast
    linarith [Real.pi_gt_three]
  · push_cast
    linarith [Real.pi_lt_d2]

lemma scanIdx_13 : scanIdx cfg₀ pose₀ prm₁ 1 3 = 3 := by
  unfold scanIdx
  rw [scanIdxRaw_13]
  decide

lemma poseMat_pose₁_entries : poseMat pose₁ = !![1, 0, 0; 0, 1, 0; 1, 0, 1] := by
  ext i j
  fin_cases i <;> fin_cases j <;>
    simp [poseMat, pose₁, Matrix.vecHead, Matrix.vecTail]

lemma inv_poseMat_pose₁ : (poseMat pose₁)⁻¹ = !![1, 0, 0; 0, 1, 0; -1, 0, 1] := by
  rw [poseMat_pose₁_entries]
  apply Matrix.inv_eq_right_inv
  ext i j
  fin_cases i <;> fin_cases j <;>
    simp [Matrix.mul_apply, Fin.sum_univ_three, Matrix.one_apply,
      Matrix.vecHead, Matrix.vecTail]

lemma poseMatSpec_pose₁_entries : poseMatSpec pose₁ = !![1, 0, 1; 0, 1, 0; 0, 0, 1] := by
  ext i j
  fin_cases i <;> fin_cases j <;>
    simp [poseMatSpec, pose₁, Matrix.vecHead, Matrix.vecTail]

lemma inv_poseMatSpec_pose₁ : (poseMatSpec pose₁)⁻¹ = !![1, 0, -1; 0, 1, 0; 0, 0, 1] := by
  rw [poseMatSpec_pose₁_entries]
  apply Matrix.inv_eq_right_inv
  ext i j
  fin_cases i <;> fin_cases j <;>
    simp [Matrix.mul_apply, Fin.sum_univ_three, Matrix.one_apply,
      Matrix.vecHead, Matrix.vecTail]

lemma worldPt_22 : worldPt cfg₀ 2 2 = (0, 0) := by
  unfold worldPt miniX maxiY cfg₀
  norm_num

lemma localPt_pose₁_22 : localPt cfg₀ pose₁ 2 2 = (0, 0) := by
  show ((poseMat pose₁)⁻¹ 0 0 * (worldPt cfg₀ 2 2).1 + (poseMat pose₁)⁻¹ 0 1 * (worldPt cfg₀ 2 2).2
          + (poseMat pose₁)⁻¹ 0 2,
        (poseMat pose₁)⁻¹ 1 0 * (worldPt cfg₀ 2 2).1 + (poseMat pose₁)⁻¹ 1 1 * (worldPt cfg₀ 2 2).2
          + (poseMat pose₁)⁻¹ 1 2) = (0, 0)
  rw [inv_poseMat_pose₁, worldPt_22]
  norm_num

lemma localPtSpec_pose₁_22 : localPtSpec cfg₀ pose₁ 2 2 = (-1, 0) := by
  show ((poseMatSpec pose₁)⁻¹ 0 0 * (worldPt cfg₀ 2 2).1
          + (poseMatSpec pose₁)⁻¹ 0 1 * (worldPt cfg₀ 2 2).2 + (poseMatSpec pose₁)⁻¹ 0 2,
        (poseMatSpec pose₁)⁻¹ 1 0 * (worldPt cfg₀ 2 2).1
          + (poseMatSpec pose₁)⁻¹ 1 1 * (worldPt cfg₀ 2 2).2 + (poseMatSpec pose₁)⁻¹ 1 2)
      = (-1, 0)
  rw [inv_poseMatSpec_pose₁, worldPt_22]
  norm_num

/-! ## Claim theorems settled on the concrete inputs -/

/-- Claim C4, refuted: on the 4x4 map at identity pose with scan parameters
`[0, 1]` rad at 0.25 rad increment and a two-ray scan, cell (1, 3) passes
the frustum test with bearing `pi/4`, its ray index evaluates to 3 with no
clamping applied, and 3 is not a valid index into the two-ray scan: the
lookup is out of bounds (the source would raise `IndexError`; the embedding
reads the default). -/
theorem C4_counterexample :
    frustumValid cfg₀ pose₀ prm₁ 1 3 ∧
    scanIdx cfg₀ pose₀ prm₁ 1 3 = 3 ∧
    ¬ ((scanIdx cfg₀ pose₀ prm₁ 1 3).toNat < scan₁.length) ∧
    depthVal cfg₀ scan₁ pose₀ prm₁ 1 3 = 0 := by
  refine ⟨frustum_13, scanIdx_13, ?_, ?_⟩
  · rw [scanIdx_13]
    decide
  · unfold depthVal
    rw [if_pos frustum_13, scanIdx_13]
    rfl

/-- Claim C4 as amended: no clamping is performed (`numScan` is computed but
unused), and what holds instead is that for a cell surviving the frustum
test with a positive angular increment, the truncated ray index is
non-negative and at most the floor of `(max_angle - min_angle) / inc_angle`;
the scan lookup is in bounds only when the scan has more rays than that
bound. -/
theorem C4_index_within_frustum_bound (cfg : MapConfig) (p : ℝ × ℝ × ℝ)
    (prm : ScanParams) (r c : ℕ) (hinc : 0 < prm.incAngle)
    (h : frustumValid cfg p prm r c) :
    0 ≤ scanIdxRaw cfg p prm r c ∧
    scanIdxRaw cfg p prm r c ≤ ⌊(prm.maxAngle - prm.minAngle) / prm.incAngle⌋ := by
  obtain ⟨-, -, -, hmin, hmax⟩ := h
  have hq0 : 0 ≤ (localAngle cfg p r c - prm.minAngle) / prm.incAngle :=
    div_nonneg (by linarith) (le_of_lt hinc)
  have hqle : (localAngle cfg p r c - prm.minAngle) / prm.incAngle
      ≤ (prm.maxAngle - prm.minAngle) / prm.incAngle := by
    gcongr
  unfold scanIdxRaw truncTowardZero
  rw [if_pos hq0]
  exact ⟨Int.floor_nonneg.mpr hq0, Int.floor_le_floor hqle⟩

theorem C4_index_within_frustum_bound_witness :
    0 ≤ scanIdxRaw cfg₀ pose₀ prm₁ 1 3 ∧
    scanIdxRaw cfg₀ pose₀ prm₁ 1 3 ≤ ⌊(prm₁.maxAngle - prm₁.minAngle) / prm₁.incAngle⌋ :=
  C4_index_within_frustum_bound cfg₀ pose₀ prm₁ 1 3 (by norm_num [prm₁]) frustum_13

/-- Claim C5, evaluated at the failing input: at pose `(x, y, yaw) =
(1, 0, 0)` the source's pose matrix carries the translation in the bottom
row (`poseMat pose₁ 2 0 = 1` while `poseMat pose₁ 0 2 = 0`), so the
inverse transform applied to the cell with world coordinate `(0, 0)` leaves
it at `(0, 0)`: the translation is dropped.  The transform the claim and
spec describe (translation in the last column, `localPtSpec`) sends the same
cell to `(-1, 0)`. -/
theorem C5_translation_misplaced :
    poseMat pose₁ 2 0 = 1 ∧ poseMat pose₁ 0 2 = 0 ∧
    worldPt cfg₀ 2 2 = (0, 0) ∧
    localPt cfg₀ pose₁ 2 2 = (0, 0) ∧
    localPtSpec cfg₀ pose₁ 2 2 = (-1, 0) ∧
    localPt cfg₀ pose₁ 2 2 ≠ localPtSpec cfg₀ pose₁ 2 2 := by
  refine ⟨?_, ?_, worldPt_22, localPt_pose₁_22, localPtSpec_pose₁_22, ?_⟩
  · rw [poseMat_pose₁_entries]
    simp [Matrix.vecHead, Matrix.vecTail]
  · rw [poseMat_pose₁_entries]
    simp [Matrix.vecHead, Matrix.vecTail]
  · rw [localPt_pose₁_22, localPtSpec_pose₁_22]
    intro h
    have := congrArg Prod.fst h
    norm_num at this

/-- Claim C6, refuted: cell (1, 2) of the 4x4 map at identity pose has
sensor-frame coordinates `(0, 1)` — forward component exactly zero, lateral
component positive — yet the bearing `FuseSdf` uses is not `pi/2`: the
source assigns `pi/2` to the *tangent* entry and then applies `arctan`,
giving `arctan(pi/2) < pi/2`. -/
theorem C6_counterexample :
    (localPt cfg₀ pose₀ 1 2).1 = 0 ∧ 0 < (localPt cfg₀ pose₀ 1 2).2 ∧
    localAngle cfg₀ pose₀ 1 2 ≠ Real.pi / 2 := by
  refine ⟨by rw [localPt_12], by rw [localPt_12]; norm_num, ?_⟩
  rw [localAngle_12]
  exact ne_of_lt (Real.arctan_lt_pi_div_two _)

/-- Claim C6 as amended: for a cell whose sensor-frame forward component is
exactly zero, the code assigns `pi/2` (lateral component positive) or
`-pi/2` (otherwise) to the tangent entry, so the bearing used for the
frustum test and ray lookup is the arctangent of that placeholder,
`arctan(±pi/2)` (≈ ±1.0039 rad), not ±pi/2 itself. -/
theorem C6_on_axis_bearing (cfg : MapConfig) (p : ℝ × ℝ × ℝ) (r c : ℕ)
    (h : (localPt cfg p r c).1 = 0) :
    localAngle cfg p r c
      = Real.arctan (if 0 < (localPt cfg p r c).2 then Real.pi / 2 else -(Real.pi / 2)) := by
  unfold localAngle localTan
  rw [if_neg (by simp [h])]

theorem C6_on_axis_bearing_witness :
    localAngle cfg₀ pose₀ 1 2
      = Real.arctan (if 0 < (localPt cfg₀ pose₀ 1 2).2 then Real.pi / 2 else -(Real.pi / 2)) :=
  C6_on_axis_bearing cfg₀ pose₀ 1 2 (by rw [localPt_12])

/-! ## Witnesses for the remaining claim theorems -/

theorem C1_running_mean_witness :
    (fuseSdf cfg₀ scan₀ pose₀ prm₀ initState).sdf 2 3
        = (initState.sdf 2 3 * initState.freq 2 3 + depthDiff cfg₀ scan₀ pose₀ prm₀ 2 3)
          / (initState.freq 2 3 + 1) ∧
    (fuseSdf cfg₀ scan₀ pose₀ prm₀ initState).freq 2 3 = initState.freq 2 3 + 1 :=
  C1_running_mean.2 cfg₀ scan₀ pose₀ prm₀ initState 2 3 mask_23

theorem C2_truncation_bound_witness :
    |initState.sdf 0 0| ≤ truncation cfg₀ ∧
    (fuseSdf cfgL scan₀ pose₀ prm₀ initState).sdf 0 10 = initState.sdf 0 10 ∧
    (fuseSdf cfgL scan₀ pose₀ prm₀ initState).freq 0 10 = initState.freq 0 10 := by
  refine ⟨C2_truncation_bound.2.1 cfg₀ initState (by norm_num [cfg₀]) Reachable.start 0 0,
    ?_, ?_⟩
  · exact (C2_truncation_bound.2.2 cfgL scan₀ pose₀ prm₀ initState 0 10 truncation_lt_L010).1
  · exact (C2_truncation_bound.2.2 cfgL scan₀ pose₀ prm₀ initState 0 10 truncation_lt_L010).2

theorem C3_frustum_exclusivity_witness :
    (fuseSdf cfg₀ scan₀ pose₀ prm₀ initState).sdf 2 1 = initState.sdf 2 1 ∧
    (fuseSdf cfg₀ scan₀ pose₀ prm₀ initState).freq 2 1 = initState.freq 2 1 :=
  C3_frustum_exclusivity cfg₀ scan₀ pose₀ prm₀ initState 2 1 (Or.inl notFrustum_21)

theorem C7_track_iterations_witness :
    ∃ k, k ≤ kOptMaxIters ∧ Track accOne expFromSe2 1 = (stepPose accOne expFromSe2)^[k] 1 := by
  obtain ⟨⟨k, hk, he, -, -⟩, -, -⟩ := C7_track_iterations accOne expFromSe2 1
  exact ⟨k, hk, he⟩

theorem C8_numeric_fallbacks_witness :
    Track accZero expFromSe2 1 = 1 ∧ xiOf (accZero 1) = 0 :=
  ⟨C8_numeric_fallbacks.1 accZero expFromSe2 1 rfl,
   C8_numeric_fallbacks.2.2 (accZero 1) (Matrix.det_zero ⟨0⟩)⟩

theorem C9_confidence_monotone_witness :
    0 ≤ initState.freq 0 0 ∧
    ((fuseSdf cfg₀ scan₀ pose₀ prm₀ initState).freq 2 3 = initState.freq 2 3 ∨
     (fuseSdf cfg₀ scan₀ pose₀ prm₀ initState).freq 2 3 = initState.freq 2 3 + 1) :=
  ⟨C9_confidence_monotone.2.2 cfg₀ initState Reachable.start 0 0,
   C9_confidence_monotone.2.1 cfg₀ scan₀ pose₀ prm₀ initState 2 3⟩

end
